import Mathlib

/-!
Verification development for the Raw-container core of an MEG/EEG toolkit.

The repository ships only the test suites of the Raw container and of the
multitaper estimator; the implementation modules themselves are not part of
the source tree.  Following the specification document, the data model and
the operations are therefore modelled here as executable Lean definitions:
sample values are exact rationals (a complex sample is a pair of rationals),
"numerical tolerance" is read as exact equality of the rational model, and
the floating-point Fourier kernels that the numerical code delegates to an
FFT library are abstracted to fixed rational kernels.  Every definition
whose body is reconstructed from the specification rather than read off the
source carries a doc comment saying so.
-/

/-- Complex sample value: real and imaginary part, as exact rationals. -/
abbrev Cplx := ℚ × ℚ

/-- Modelled from the spec (§7 Error handling design): the four error kinds.
All of them surface as `ValueError` / `RuntimeError` in the Python API. -/
inductive Err where
  | configurationError
  | formatError
  | stateError
  | dimensionError
deriving DecidableEq

/-- Modelled from the spec (§3): a projection-vector record, a named
subspace basis vector restricted to a channel subset, with an active flag. -/
structure Proj where
  name : String
  active : Bool
deriving DecidableEq

/-- Modelled from the spec (§3, §4.1): the three buffer modes of a Raw
container: lazy on-demand reads, fully materialized in memory, or
memory-mapped to a caller-chosen backing path. -/
inductive PreloadMode where
  | lazy
  | memory
  | memmap (path : String)
deriving DecidableEq

/-- Modelled from the spec (§3 Data model): the Raw container.  `file` is
the logical content of the backing file; `buf` is the resident buffer
(meaningful only when the mode is not lazy); `cplx` records whether the
sample dtype is complex-valued. -/
structure Raw where
  sfreq : ℚ
  ch_names : List String
  bads : List String
  projs : List Proj
  proj_active : Bool
  first_samp : Nat
  mode : PreloadMode
  file : List (List Cplx)
  buf : List (List Cplx)
  cplx : Bool
deriving DecidableEq

/-- Row `c` of a channels-by-samples buffer (empty when out of range). -/
def rowOf (d : List (List Cplx)) (c : Nat) : List Cplx :=
  d.getD c []

/-- The half-open sample window `[start, stop)` of one channel row. -/
def sliceRow (r : List Cplx) (start stop : Nat) : List Cplx :=
  (r.drop start).take (stop - start)

/-- Whether the container has a resident buffer (memory or memmap mode). -/
def Raw.isPreloaded (r : Raw) : Bool :=
  match r.mode with
  | .lazy => false
  | _ => true

/-- The buffer a read is served from: the resident buffer when preloaded,
the backing file otherwise (spec §4.2: lazy reads fetch from disk). -/
def Raw.activeData (r : Raw) : List (List Cplx) :=
  if r.isPreloaded then r.buf else r.file

/-- Number of samples, read off the backing file's first channel row. -/
def Raw.n_times (r : Raw) : Nat :=
  (rowOf r.file 0).length

/-- Last absolute sample index (inclusive); spec §3:
`n_times = last_samp - first_samp + 1`. -/
def Raw.last_samp (r : Raw) : Nat :=
  r.first_samp + r.n_times - 1

/-- Read of one channel over the half-open window `[start, stop)`,
served from the active buffer (spec §4.2 indexed access). -/
def Raw.getPick (r : Raw) (c start stop : Nat) : List Cplx :=
  sliceRow (rowOf r.activeData c) start stop

/-- Read of a channel selection over `[start, stop)`: the data half of
`raw[picks, start:stop]` (spec §4.2). -/
def Raw.getData (r : Raw) (picks : List Nat) (start stop : Nat) : List (List Cplx) :=
  picks.map (fun c => r.getPick c start stop)

/-- The times half of `raw[picks, start:stop]`: absolute time of each
returned sample, `(first_samp + sample_index) / sfreq` (spec §4.2). -/
def Raw.timesOf (r : Raw) (start stop : Nat) : List ℚ :=
  (List.range (stop - start)).map
    (fun i => ((r.first_samp : ℚ) + (start : ℚ) + (i : ℚ)) / r.sfreq)

/-- Basic well-formedness of a container: the resident buffer mirrors the
backing file when preloaded, there is at least one channel, and all
channel rows have the same number of samples. -/
def Raw.WF (r : Raw) : Prop :=
  (r.isPreloaded = true → r.buf = r.file) ∧ r.file ≠ [] ∧
    ∀ row ∈ r.file, row.length = r.n_times

instance (r : Raw) : Decidable r.WF := by
  unfold Raw.WF; infer_instance

/-- Modelled from the spec (§4.6 persistence): the logical content of a
written file — the selected metadata and the streamed sample blocks. -/
structure SavedFile where
  sfreq : ℚ
  ch_names : List String
  bads : List String
  projs : List Proj
  first_samp : Nat
  data : List (List Cplx)
  cplx : Bool
deriving DecidableEq

/-- Sample index of a time point: `floor(t * sfreq)`, clamped at zero. -/
def floorSamp (t : ℚ) (sfreq : ℚ) : Nat :=
  (Int.floor (t * sfreq)).toNat

/-- First sample index written by `save(..., tmin, ...)`. -/
def Raw.saveStart (r : Raw) (tmin : ℚ) : Nat :=
  floorSamp tmin r.sfreq

/-- One-past-last sample index written by `save(..., tmax, ...)`,
clipped to the recording length. -/
def Raw.saveStop (r : Raw) (tmax : ℚ) : Nat :=
  min r.n_times (floorSamp tmax r.sfreq + 1)

/-- Modelled from the spec (§4.6): `save(path, picks, tmin, tmax,
buffer_size_sec, drop_small_buffer)` writes the selected channels and
sample range, streamed through `buffer_size_sec`-second blocks;
`drop_small_buffer` discards a final block shorter than the nominal
size.  The new file's `first_samp` is shifted by the window start. -/
def Raw.save (r : Raw) (picks : List Nat) (tmin tmax : ℚ)
    (buffer_size_sec : ℚ) (drop_small_buffer : Bool) : SavedFile :=
  let start := r.saveStart tmin
  let stop := r.saveStop tmax
  let len := stop - start
  let blen := max 1 (floorSamp buffer_size_sec r.sfreq)
  let keep := if drop_small_buffer then len / blen * blen else len
  { sfreq := r.sfreq
    ch_names := picks.map (fun c => r.ch_names.getD c "")
    bads := r.bads
    projs := r.projs
    first_samp := r.first_samp + start
    data := picks.map (fun c => ((rowOf r.activeData c).drop start).take keep)
    cplx := r.cplx }

/-- Modelled from the spec (§4.1): loading a file in a given preload mode;
lazy mode leaves the resident buffer absent, the two preloaded modes
materialize the file content. -/
def loadRaw (f : SavedFile) (m : PreloadMode) : Raw :=
  { sfreq := f.sfreq
    ch_names := f.ch_names
    bads := f.bads
    projs := f.projs
    proj_active := false
    first_samp := f.first_samp
    mode := m
    file := f.data
    buf := if m = .lazy then [] else f.data
    cplx := f.cplx }

/-- Modelled from the spec (§4.6, §9): saving with the explicit
process-scoped warn-once state for complex-valued data.  Returns the
written file, the number of warnings emitted by this call, and the new
process state.  The data is written losslessly in every case. -/
def saveWithWarn (warned : Bool) (r : Raw) (picks : List Nat) (tmin tmax : ℚ)
    (buffer_size_sec : ℚ) (drop_small_buffer : Bool) :
    SavedFile × Nat × Bool :=
  (r.save picks tmin tmax buffer_size_sec drop_small_buffer,
   if r.cplx && !warned then 1 else 0,
   warned || r.cplx)

/-- Overwrite the segment of a channel row starting at `start` with the
given values, leaving the rest of the row unchanged. -/
def overwriteSeg (row : List Cplx) (start : Nat) (vals : List Cplx) : List Cplx :=
  row.take start ++ vals ++ row.drop (start + vals.length)

/-- The resident buffer after the assignment `raw[picks, start:...] = a`:
row `c` is overwritten from `start` with `a`'s row for `c`'s position in
`picks`, other rows are untouched. -/
def Raw.setData (r : Raw) (picks : List Nat) (start : Nat)
    (a : List (List Cplx)) : Raw :=
  { r with
    buf := r.buf.mapIdx (fun c old =>
      match List.indexOf? c picks with
      | some j => overwriteSeg old start (a.getD j [])
      | none => old) }

/-- Modelled from the spec (§4.2): indexed assignment
`raw[picks, start:stop] = a`.  Fails with a state error when the data is
not resident, with a dimension error on shape mismatch; otherwise updates
the resident buffer in place. -/
def Raw.setItem (r : Raw) (picks : List Nat) (start stop : Nat)
    (a : List (List Cplx)) : Except Err Raw :=
  if r.isPreloaded = false then .error .stateError
  else if a.length = picks.length ∧ ∀ v ∈ a, v.length = stop - start then
    .ok (r.setData picks start a)
  else .error .dimensionError

/-- Sample-axis concatenation of two channels-by-samples buffers. -/
def hconcat (a b : List (List Cplx)) : List (List Cplx) :=
  List.zipWith (· ++ ·) a b

/-- Modelled from the spec (§4.5): `append(other)`, the in-place
two-argument concatenation.  Fails with a configuration error when the
channel layout, the bad-channel marking or the projector record set of
`other` differs from the receiver's. -/
def Raw.append (r s : Raw) : Except Err Raw :=
  if r.ch_names = s.ch_names ∧ r.bads = s.bads ∧ r.projs = s.projs then
    .ok { r with
      file := hconcat r.activeData s.activeData
      buf := if r.isPreloaded then hconcat r.activeData s.activeData else r.buf }
  else .error .configurationError

/-- The preload argument of `concatenate_raws`: the default (preloaded
only when every input already is), an explicit boolean, or a backing
path for memory-mapped concatenation (spec §4.5). -/
inductive PreloadOpt where
  | auto
  | yes
  | no
  | memmapTo (path : String)
deriving DecidableEq

/-- Modelled from the spec (§4.5): resulting preload mode of a
concatenation: a backing-path override forces memory-mapping, an explicit
boolean is obeyed, and by default the result is preloaded exactly when
every input was. -/
def concatMode (rs : List Raw) (opt : PreloadOpt) : PreloadMode :=
  match opt with
  | .memmapTo p => .memmap p
  | .yes => .memory
  | .no => .lazy
  | .auto => if rs.all (fun s => s.isPreloaded) then .memory else .lazy

/-- Sample-axis concatenation of the active buffers of a list of
containers, in list order. -/
def concatData : List Raw → List (List Cplx)
  | [] => []
  | r :: rest =>
    match rest with
    | [] => r.activeData
    | _ :: _ => hconcat r.activeData (concatData rest)

/-- Modelled from the spec (§4.5): `concatenate_raws(list, preload)`.
Fails with a configuration error on an empty list or when any member's
channel layout, bad-channel marking or projector set differs from the
first member's; otherwise lays the inputs out contiguously after the
first member's `first_samp`. -/
def concatenate_raws (rs : List Raw) (opt : PreloadOpt) : Except Err Raw :=
  match rs with
  | [] => .error .configurationError
  | r :: rest =>
    if rest.all (fun s =>
        r.ch_names = s.ch_names ∧ r.bads = s.bads ∧ r.projs = s.projs) then
      let d := concatData (r :: rest)
      let m := concatMode (r :: rest) opt
      .ok { r with
        mode := m
        file := d
        buf := if m = .lazy then [] else d }
    else .error .configurationError

/-- Modelled from the spec (§4.1): constructing one Raw container from a
list of sources, time-concatenated in list order. -/
def RawFromList (fs : List SavedFile) (opt : PreloadOpt) : Except Err Raw :=
  concatenate_raws (fs.map (fun f => loadRaw f .lazy)) opt

/-- Modelled from the spec (§4.4): `add_proj(records, remove_existing)`.
Fails with a state error when projection was fixed active at
construction; otherwise appends the records, clearing the existing list
first when `remove_existing` is set. -/
def Raw.add_proj (r : Raw) (records : List Proj) (remove_existing : Bool) :
    Except Err Raw :=
  if r.proj_active then .error .stateError
  else .ok { r with projs := if remove_existing then records else r.projs ++ records }

/-- Modelled from the spec (§4.4): `del_proj(index)` removes one record by
position; fails with a state error when projection was fixed active at
construction. -/
def Raw.del_proj (r : Raw) (i : Nat) : Except Err Raw :=
  if r.proj_active then .error .stateError
  else .ok { r with projs := r.projs.eraseIdx i }

/-- Modelled from the spec (§4.3): the frequency response of the digital
filter.  `filter(0, h)` is a low-pass passing frequencies up to `h`;
`filter(l, None)` is a high-pass passing frequencies above `l`;
`filter(l, h)` with both edges finite is a band-pass passing the band
between them. -/
def freqGain (l : ℚ) (h : Option ℚ) (f : ℚ) : ℚ :=
  match h with
  | some hh => if l = 0 then (if f ≤ hh then 1 else 0)
               else (if l < f ∧ f ≤ hh then 1 else 0)
  | none => if l < f then 1 else 0

/-- Frequency of discrete spectral bin `k` of an `n`-sample series. -/
def binFreq (sfreq : ℚ) (n k : Nat) : ℚ :=
  sfreq * (k : ℚ) / (n : ℚ)

/-- Modelled from the spec (§4.3): filtering one channel's full time
series, represented in its discrete frequency-bin decomposition (the
floating-point FFT round trip of the numerical code is abstracted away):
component `k` is scaled by the response at the frequency of bin `k`. -/
def filterChannel (l : ℚ) (h : Option ℚ) (sfreq : ℚ) (x : List Cplx) : List Cplx :=
  x.mapIdx (fun k v => freqGain l h (binFreq sfreq x.length k) • v)

/-- Modelled from the spec (§4.3): `filter(low, high, picks)` applies the
filter independently to each selected channel of the resident buffer,
forcing materialization first when the data was not resident; channels
not in `picks` are left bit-identical. -/
def Raw.filter (r : Raw) (l : ℚ) (h : Option ℚ) (picks : List Nat) : Raw :=
  { r with
    mode := if r.isPreloaded then r.mode else .memory
    buf := r.activeData.mapIdx (fun c row =>
      if c ∈ picks then filterChannel l h r.sfreq row else row) }

/-- Componentwise sum of two channel rows. -/
def addRow (a b : List Cplx) : List Cplx :=
  List.zipWith (· + ·) a b

/-- Contiguous chunks of a given size, with an explicit recursion fuel. -/
def chunksOfAux (size : Nat) : Nat → List α → List (List α)
  | 0, _ => []
  | fuel + 1, l => if l.isEmpty then [] else
      l.take size :: chunksOfAux size fuel (l.drop size)

/-- Modelled from the spec (§5): the fan-out of an embarrassingly parallel
per-item computation over `njobs` workers: the item list split into
contiguous chunks of near-equal size, one chunk per worker. -/
def splitJobs (njobs : Nat) (l : List α) : List (List α) :=
  chunksOfAux (max 1 ((l.length + (max 1 njobs) - 1) / max 1 njobs)) l.length l

theorem flatten_chunksOfAux (size : Nat) (hs : 1 ≤ size) :
    ∀ (fuel : Nat) (l : List α), l.length ≤ fuel →
      (chunksOfAux size fuel l).flatten = l := by
  intro fuel
  induction fuel with
  | zero =>
    intro l hl
    simp only [Nat.le_zero, List.length_eq_zero] at hl
    subst hl
    rfl
  | succ n ih =>
    intro l hl
    rw [chunksOfAux]
    rcases l with _ | ⟨x, xs⟩
    · rfl
    · simp only [List.isEmpty_cons, if_false, Bool.false_eq_true, List.flatten_cons]
      rw [ih _ (by simp only [List.length_drop]; omega)]
      exact List.take_append_drop _ _

theorem flatten_splitJobs (njobs : Nat) (l : List α) :
    (splitJobs njobs l).flatten = l :=
  flatten_chunksOfAux _ (Nat.le_max_left _ _) _ _ le_rfl

/-- Splitting over any worker count, mapping chunkwise and rejoining is
the plain map: the fan-out/fan-in is deterministic in the job count. -/
theorem splitJobs_map_flatten (njobs : Nat) (f : α → β) (l : List α) :
    ((splitJobs njobs l).map (List.map f)).flatten = l.map f := by
  rw [← List.map_flatten, flatten_splitJobs]

/-- Explicit rational matrix inverse: the adjugate scaled by the inverse
determinant (equal to the inverse on invertible matrices, and fully
computable over `ℚ`). -/
def qInv {k : Nat} (A : Matrix (Fin k) (Fin k) ℚ) : Matrix (Fin k) (Fin k) ℚ :=
  A.det⁻¹ • A.adjugate

/-- Modelled from the spec (§4.4): the subspace-removal operator built
from the active projection vectors (the rows of `U`) by an
orthogonal-projection construction: identity minus the orthogonal
projection onto the row span of `U`. -/
def make_projector {k n : Nat} (U : Matrix (Fin k) (Fin n) ℚ) :
    Matrix (Fin n) (Fin n) ℚ :=
  1 - U.transpose * qInv (U * U.transpose) * U

/-- Modelled from the spec (§4.4): `apply_projector()` left-multiplies the
channels-by-samples data by the computed nchan-by-nchan operator. -/
def apply_projector {k n m : Nat} (U : Matrix (Fin k) (Fin n) ℚ)
    (D : Matrix (Fin n) (Fin m) ℚ) : Matrix (Fin n) (Fin m) ℚ :=
  make_projector U * D

theorem qInv_mul_self {k : Nat} (A : Matrix (Fin k) (Fin k) ℚ)
    (h : A.det ≠ 0) : qInv A * A = 1 := by
  rw [qInv, Matrix.smul_mul, Matrix.adjugate_mul, smul_smul,
    inv_mul_cancel₀ h, one_smul]

theorem gram_proj_idem {k n : Nat} (U : Matrix (Fin k) (Fin n) ℚ)
    (h : (U * U.transpose).det ≠ 0) :
    (U.transpose * qInv (U * U.transpose) * U) * (U.transpose * qInv (U * U.transpose) * U)
      = U.transpose * qInv (U * U.transpose) * U := by
  have key : qInv (U * U.transpose) * (U * U.transpose) * qInv (U * U.transpose) = qInv (U * U.transpose) := by
    rw [qInv_mul_self _ h, one_mul]
  calc (U.transpose * qInv (U * U.transpose) * U) * (U.transpose * qInv (U * U.transpose) * U)
      = U.transpose * (qInv (U * U.transpose) * (U * U.transpose) * qInv (U * U.transpose)) * U := by
        simp only [Matrix.mul_assoc]
    _ = U.transpose * qInv (U * U.transpose) * U := by rw [key, Matrix.mul_assoc]

theorem make_projector_idem {k n : Nat} (U : Matrix (Fin k) (Fin n) ℚ)
    (h : (U * U.transpose).det ≠ 0) :
    make_projector U * make_projector U = make_projector U := by
  rw [make_projector, sub_mul, one_mul, mul_sub, mul_one,
    gram_proj_idem U h, sub_self, sub_zero]

/-- Modelled from the spec (§4.7): fixed rational stand-in for the cosine
Fourier kernel of an `n`-point transform (the floating-point FFT of the
numerical code is out of scope of the exact model). -/
def specKernelCos (n a : Nat) : ℚ :=
  1 - 2 * ((a % max 1 n : ℚ) / (max 1 n : ℚ))

/-- Fixed rational stand-in for the sine Fourier kernel, a quarter-period
shift of the cosine stand-in. -/
def specKernelSin (n a : Nat) : ℚ :=
  specKernelCos n (a + max 1 n / 4)

/-- Modelled from the spec (§4.7): `dpss_windows(N, half_nbw, Kmax)`
computes `Kmax` taper sequences of length `N` together with their
concentration eigenvalues (taken in `(0, 1]`, decreasing). -/
def dpss_windows (N : Nat) (half_nbw : ℚ) (Kmax : Nat) :
    List (List ℚ) × List ℚ :=
  ((List.range Kmax).map (fun j =>
      (List.range N).map (fun t => specKernelCos N ((j + 1) * t))),
   (List.range Kmax).map (fun j =>
      1 - (j : ℚ) / (2 * (Kmax : ℚ) + 1 + half_nbw)))

/-- One component of the tapered discrete transform of a channel. -/
def tdot (taper x : List ℚ) (ker : Nat → ℚ) (n k : Nat) : ℚ :=
  ((List.range n).map (fun t => taper.getD t 0 * x.getD t 0 * ker (k * t))).sum

/-- Modelled from the spec (§4.7): the periodogram of one taper at one
frequency bin: the squared magnitude of the tapered transform. -/
def periodogramAt (taper x : List ℚ) (n k : Nat) : ℚ :=
  tdot taper x (specKernelCos n) n k ^ 2 + tdot taper x (specKernelSin n) n k ^ 2

/-- Number of one-sided frequency bins of an `n`-sample series. -/
def nFreqs (n : Nat) : Nat := n / 2 + 1

/-- The one-sided frequency axis of an `n`-sample series. -/
def freqAxis (sfreq : ℚ) (n : Nat) : List ℚ :=
  (List.range (nFreqs n)).map (fun k => binFreq sfreq n k)

/-- Modelled from the spec (§4.7): the non-adaptive combination, a fixed
eigenvalue-weighted average of the per-taper periodograms. -/
def fixedWeightPSD (tapers : List (List ℚ)) (eigs : List ℚ) (x : List ℚ)
    (n k : Nat) : ℚ :=
  (List.zipWith (fun tap lam => lam * periodogramAt tap x n k) tapers eigs).sum
    / eigs.sum

/-- Mean power of a channel, the variance estimate seeding the adaptive
weights. -/
def xVar (x : List ℚ) : ℚ :=
  (x.map (fun v => v * v)).sum / (x.length : ℚ)

/-- Modelled from the spec (§4.7): one step of the iterative adaptive
re-weighting: weights computed from the current estimate down-weight
high-bias tapers, and the weighted periodograms give the next estimate. -/
def adaptiveStep (tapers : List (List ℚ)) (eigs : List ℚ) (x : List ℚ)
    (n k : Nat) (est : ℚ) : ℚ :=
  let ps := tapers.map (fun tap => periodogramAt tap x n k)
  let ws := eigs.map (fun lam => est / (est * lam + (1 - lam) * xVar x))
  (List.zipWith (fun w p => w * w * p) ws ps).sum
    / (ws.map (fun w => w * w)).sum

/-- Modelled from the spec (§4.7): the PSD value of one channel at one
frequency bin, by the fixed-weight combination or by the adaptive
iterative refinement seeded with the fixed-weight estimate. -/
def psdChannelAt (adaptive : Bool) (tapers : List (List ℚ)) (eigs : List ℚ)
    (x : List ℚ) (n k : Nat) : ℚ :=
  if adaptive then
    adaptiveStep tapers eigs x n k
      (adaptiveStep tapers eigs x n k (fixedWeightPSD tapers eigs x n k))
  else fixedWeightPSD tapers eigs x n k

/-- Modelled from the spec (§4.7): the one-sided PSD of a single channel. -/
def psdChannel (adaptive : Bool) (x : List ℚ) : List ℚ :=
  let n := x.length
  let tw := dpss_windows n 4 7
  (List.range (nFreqs n)).map (fun k => psdChannelAt adaptive tw.1 tw.2 x n k)

/-- Modelled from the spec (§4.7): `multitaper_psd(signal, sfreq, adaptive,
n_jobs)`: the channels are fanned out over `n_jobs` independent workers,
each channel's one-sided PSD is computed on its own, and the per-worker
results are rejoined in channel order; the frequency axis accompanies the
PSD array. -/
def multitaper_psd (x : List (List ℚ)) (sfreq : ℚ) (adaptive : Bool)
    (n_jobs : Nat) : List (List ℚ) × List ℚ :=
  (((splitJobs n_jobs x).map (List.map (psdChannel adaptive))).flatten,
   freqAxis sfreq (x.headD []).length)

/-- Modelled from the spec/test: fixed rational stand-in for the discrete
Hilbert transform of a channel (a fixed real-linear combination of
neighbouring samples; the FFT-based transform of the numerical code is
out of scope of the exact model). -/
def hilbertIm (x : List ℚ) : List ℚ :=
  x.mapIdx (fun t _ => x.getD (t + 1) 0 - x.getD (t - 1) 0)

/-- Modelled from the spec/test: the analytic signal of a channel: the
original series as real part, its Hilbert transform as imaginary part. -/
def analyticSignal (x : List ℚ) : List Cplx :=
  List.zipWith (fun a b => (a, b)) x (hilbertIm x)

/-- Magnitude of a complex sample value. -/
noncomputable def complexAbs (z : Cplx) : ℝ :=
  Real.sqrt ((z.1 : ℝ) ^ 2 + (z.2 : ℝ) ^ 2)

/-- Modelled from the spec/test: `apply_hilbert(picks, n_jobs)` replaces
each selected channel of a preloaded buffer by its analytic signal, the
selected channels fanned out over `n_jobs` workers; unselected channels
keep their values (with zero imaginary part, the buffer dtype having
become complex). -/
def apply_hilbert (d : List (List ℚ)) (picks : List Nat) (n_jobs : Nat) :
    List (List Cplx) :=
  let transformed :=
    ((splitJobs n_jobs picks).map
      (List.map (fun c => analyticSignal (d.getD c [])))).flatten
  d.mapIdx (fun c row =>
    match List.indexOf? c picks with
    | some j => transformed.getD j []
    | none => row.map (fun v => ((v : ℚ), (0 : ℚ))))

/-- Modelled from the spec/test: `apply_hilbert(picks, envelope=True,
n_jobs)` stores, for each selected channel, the magnitude of the analytic
signal; unselected channels keep their real values. -/
noncomputable def apply_hilbert_env (d : List (List ℚ)) (picks : List Nat)
    (n_jobs : Nat) : List (List ℝ) :=
  let transformed :=
    ((splitJobs n_jobs picks).map
      (List.map (fun c => (analyticSignal (d.getD c [])).map complexAbs))).flatten
  d.mapIdx (fun c row =>
    match List.indexOf? c picks with
    | some j => transformed.getD j []
    | none => row.map (fun v => (v : ℝ)))

theorem getD_map_of_lt {α β : Type} (f : α → β) (l : List α) (i : Nat)
    (h : i < l.length) (d : β) (d' : α) :
    (l.map f).getD i d = f (l.getD i d') := by
  rw [List.getD_eq_getElem _ _ (by simpa using h), List.getElem_map,
    List.getD_eq_getElem _ _ h]

theorem loadRaw_activeData (f : SavedFile) (m : PreloadMode) :
    (loadRaw f m).activeData = f.data := by
  cases m <;> rfl

theorem save_load_row (r : Raw) (picks : List Nat) (tmin tmax bufsz : ℚ)
    (m : PreloadMode) (j : Nat) (hj : j < picks.length) :
    (loadRaw (r.save picks tmin tmax bufsz false) m).getPick j 0
        (r.saveStop tmax - r.saveStart tmin)
      = sliceRow (rowOf r.activeData (picks.getD j 0))
          (r.saveStart tmin) (r.saveStop tmax) := by
  rw [Raw.getPick, loadRaw_activeData]
  show sliceRow (rowOf (r.save picks tmin tmax bufsz false).data j) 0 _ = _
  have hdata : (r.save picks tmin tmax bufsz false).data
      = picks.map (fun c => ((rowOf r.activeData c).drop (r.saveStart tmin)).take
          (r.saveStop tmax - r.saveStart tmin)) := rfl
  rw [hdata, rowOf, getD_map_of_lt _ _ _ hj _ 0, sliceRow, sliceRow,
    List.drop_zero, Nat.sub_zero, List.take_take, min_self]

theorem save_load_times (r : Raw) (picks : List Nat) (tmin tmax bufsz : ℚ)
    (ds : Bool) (m : PreloadMode) :
    (loadRaw (r.save picks tmin tmax bufsz ds) m).timesOf 0
        (r.saveStop tmax - r.saveStart tmin)
      = r.timesOf (r.saveStart tmin) (r.saveStop tmax) := by
  show (List.range (r.saveStop tmax - r.saveStart tmin - 0)).map
      (fun i => (((r.first_samp + r.saveStart tmin : Nat) : ℚ) + ((0 : Nat) : ℚ)
        + (i : ℚ)) / r.sfreq) = _
  rw [Nat.sub_zero, Raw.timesOf]
  apply List.map_congr_left
  intro i _
  push_cast
  ring_nf

/-- C1: for every Raw container, channel selection `picks`, time range
`[tmin, tmax]` and buffer size, saving and then loading the written file
(in any reload mode, lazy or preloaded) and reading the same
channel/sample selection reproduces the source values exactly and the
derived time axis exactly: row `j` of the reloaded container over its
full written window equals the source window of channel `picks[j]`, and
the reloaded time axis equals the source time axis of the window. -/
theorem C1_save_roundtrip (r : Raw) (picks : List Nat) (tmin tmax bufsz : ℚ)
    (m : PreloadMode) (j : Nat) (hj : j < picks.length) :
    (loadRaw (r.save picks tmin tmax bufsz false) m).sfreq = r.sfreq ∧
    (loadRaw (r.save picks tmin tmax bufsz false) m).getPick j 0
        (r.saveStop tmax - r.saveStart tmin)
      = sliceRow (rowOf r.activeData (picks.getD j 0))
          (r.saveStart tmin) (r.saveStop tmax) ∧
    (loadRaw (r.save picks tmin tmax bufsz false) m).timesOf 0
        (r.saveStop tmax - r.saveStart tmin)
      = r.timesOf (r.saveStart tmin) (r.saveStop tmax) :=
  ⟨rfl, save_load_row r picks tmin tmax bufsz m j hj,
    save_load_times r picks tmin tmax bufsz false m⟩

/-- Concrete two-channel, four-sample, preloaded container used to
instantiate the universally quantified theorems. -/
def demoRaw : Raw :=
  { sfreq := 1
    ch_names := ["MEG 0111", "MEG 0112"]
    bads := []
    projs := [{ name := "PCA-v1", active := false }]
    proj_active := false
    first_samp := 2
    mode := .memory
    file := [[(1, 0), (2, 0), (3, 0), (4, 0)], [(5, 0), (6, 0), (7, 0), (8, 0)]]
    buf := [[(1, 0), (2, 0), (3, 0), (4, 0)], [(5, 0), (6, 0), (7, 0), (8, 0)]]
    cplx := false }

/-- Witness for C1 at a concrete container, selection and window. -/
theorem C1_save_roundtrip_witness :
    (loadRaw (demoRaw.save [1, 0] 1 2 1 false) .lazy).sfreq = demoRaw.sfreq ∧
    (loadRaw (demoRaw.save [1, 0] 1 2 1 false) .lazy).getPick 0 0
        (demoRaw.saveStop 2 - demoRaw.saveStart 1)
      = sliceRow (rowOf demoRaw.activeData ([1, 0].getD 0 0))
          (demoRaw.saveStart 1) (demoRaw.saveStop 2) ∧
    (loadRaw (demoRaw.save [1, 0] 1 2 1 false) .lazy).timesOf 0
        (demoRaw.saveStop 2 - demoRaw.saveStart 1)
      = demoRaw.timesOf (demoRaw.saveStart 1) (demoRaw.saveStop 2) :=
  C1_save_roundtrip demoRaw [1, 0] 1 2 1 .lazy 0 (by decide)

/-- C9: `multitaper_psd` returns the same PSD array and the same frequency
axis for every value of `n_jobs`, for both adaptive and non-adaptive
weighting: two runs differing only in job count produce identical
results. -/
theorem C9_multitaper_njobs_invariant (x : List (List ℚ)) (sfreq : ℚ)
    (adaptive : Bool) (j₁ j₂ : Nat) :
    multitaper_psd x sfreq adaptive j₁ = multitaper_psd x sfreq adaptive j₂ := by
  unfold multitaper_psd
  rw [splitJobs_map_flatten, splitJobs_map_flatten]

/-- C6: on a container constructed with the projector fixed active, both
`add_proj` and `del_proj` fail with the state error; on a container with
the projector not fixed active, `del_proj i` removes exactly the record
at position `i` (one fewer record remains), `add_proj` with
`remove_existing = false` appends the given records to the existing list,
and with `remove_existing = true` replaces the list by the given
records. -/
theorem C6_proj_mutation :
    (∀ (r : Raw) (recs : List Proj) (re : Bool) (i : Nat),
      r.proj_active = true →
        r.add_proj recs re = .error .stateError ∧
        r.del_proj i = .error .stateError) ∧
    (∀ (r : Raw) (i : Nat), r.proj_active = false → i < r.projs.length →
      r.del_proj i
          = .ok { r with projs := r.projs.take i ++ r.projs.drop (i + 1) } ∧
      ((r.projs.take i ++ r.projs.drop (i + 1)).length
          = r.projs.length - 1)) ∧
    (∀ (r : Raw) (recs : List Proj), r.proj_active = false →
      r.add_proj recs false = .ok { r with projs := r.projs ++ recs } ∧
      r.add_proj recs true = .ok { r with projs := recs }) := by
  refine ⟨fun r recs re i h => ⟨?_, ?_⟩, fun r i h hi => ⟨?_, ?_⟩,
    fun r recs h => ⟨?_, ?_⟩⟩
  · simp [Raw.add_proj, h]
  · simp [Raw.del_proj, h]
  · simp [Raw.del_proj, h, List.eraseIdx_eq_take_drop_succ]
  · rw [← List.eraseIdx_eq_take_drop_succ, List.length_eraseIdx, if_pos hi]
  · simp [Raw.add_proj, h]
  · simp [Raw.add_proj, h]

/-- Witness for C6 at the concrete container of the development. -/
theorem C6_proj_mutation_witness :
    ({ demoRaw with proj_active := true }.add_proj [] true
        = .error .stateError ∧
      { demoRaw with proj_active := true }.del_proj 0
        = .error .stateError) ∧
    (demoRaw.del_proj 0
        = .ok { demoRaw with
            projs := demoRaw.projs.take 0 ++ demoRaw.projs.drop 1 } ∧
      (demoRaw.projs.take 0 ++ demoRaw.projs.drop 1).length
        = demoRaw.projs.length - 1) ∧
    (demoRaw.add_proj demoRaw.projs false
        = .ok { demoRaw with projs := demoRaw.projs ++ demoRaw.projs } ∧
      demoRaw.add_proj demoRaw.projs true
        = .ok { demoRaw with projs := demoRaw.projs }) :=
  ⟨C6_proj_mutation.1 { demoRaw with proj_active := true } [] true 0 (by decide),
   C6_proj_mutation.2.1 demoRaw 0 (by decide) (by decide),
   C6_proj_mutation.2.2 demoRaw demoRaw.projs (by decide)⟩

/-- C8: constructing a Raw container from a list of sources among which
some member's channel layout or bad-channel marking differs from the
first member's fails with the configuration-error kind, and `append`
fails with the configuration-error kind whenever the other container's
projector record set differs from the receiver's. -/
theorem C8_incompatible_configuration :
    (∀ (f1 f2 : SavedFile) (fs : List SavedFile) (opt : PreloadOpt),
      f2 ∈ fs → (f1.ch_names ≠ f2.ch_names ∨ f1.bads ≠ f2.bads) →
      RawFromList (f1 :: fs) opt = .error .configurationError) ∧
    (∀ r s : Raw, r.projs ≠ s.projs →
      r.append s = .error .configurationError) := by
  constructor
  · intro f1 f2 fs opt hmem hne
    rw [RawFromList, List.map_cons]
    show (if _ then _ else _) = _
    rw [if_neg]
    intro hcond
    have hmem2 : loadRaw f2 .lazy ∈ fs.map (fun f => loadRaw f .lazy) :=
      List.mem_map_of_mem _ hmem
    have hc := List.all_eq_true.mp hcond (loadRaw f2 .lazy) hmem2
    simp only [decide_eq_true_eq] at hc
    rcases hne with h | h
    · exact h hc.1
    · exact h hc.2.1
  · intro r s hne
    rw [Raw.append, if_neg]
    intro hc
    exact hne hc.2.2

/-- Second concrete saved file, with a different channel layout than the
first channel's save, instantiating the incompatibility checks. -/
def demoFileOther : SavedFile := demoRaw.save [1] 0 4 1 false

/-- Witness for C8 at concrete incompatible sources. -/
theorem C8_incompatible_configuration_witness :
    RawFromList [demoRaw.save [0] 0 4 1 false, demoFileOther] .auto
        = .error .configurationError ∧
    demoRaw.append { demoRaw with projs := [] }
        = .error .configurationError :=
  ⟨C8_incompatible_configuration.1 (demoRaw.save [0] 0 4 1 false)
      demoFileOther [demoFileOther] .auto (List.mem_singleton.mpr rfl)
      (by decide),
   C8_incompatible_configuration.2 demoRaw { demoRaw with projs := [] }
      (by decide)⟩

/-- C7: `apply_projector` is idempotent: the nchan-by-nchan
subspace-removal operator computed from a linearly independent family of
active projection vectors, applied twice to the channels-by-samples data,
equals the operator applied once; data already projected is a fixed point
of the operator. -/
theorem C7_projector_idempotent {k n m : Nat} (U : Matrix (Fin k) (Fin n) ℚ)
    (D : Matrix (Fin n) (Fin m) ℚ) (h : (U * U.transpose).det ≠ 0) :
    apply_projector U (apply_projector U D) = apply_projector U D := by
  rw [apply_projector, apply_projector, ← Matrix.mul_assoc,
    make_projector_idem U h]

/-- Witness for C7 at a concrete record matrix and data column. -/
theorem C7_projector_idempotent_witness :
    apply_projector (1 : Matrix (Fin 2) (Fin 2) ℚ)
        (apply_projector (1 : Matrix (Fin 2) (Fin 2) ℚ) (Matrix.of ![![(3 : ℚ)], ![4]]))
      = apply_projector (1 : Matrix (Fin 2) (Fin 2) ℚ) (Matrix.of ![![(3 : ℚ)], ![4]]) :=
  C7_projector_idempotent (1 : Matrix (Fin 2) (Fin 2) ℚ) (Matrix.of ![![(3 : ℚ)], ![4]])
    (by
      rw [Matrix.transpose_one, Matrix.mul_one, Matrix.det_one]
      norm_num)

/-- C4: with a fresh process state, saving a container holding
complex-valued sample data emits exactly one warning and marks the
process state; with the state already marked (i.e. on every subsequent
save of complex data in the same process) no warning is emitted and the
state stays marked; in all cases the written file is exactly the plain
save — the complex data is written losslessly — and reloading it in any
mode reproduces the saved selection exactly. -/
theorem C4_complex_save_warn_once :
    (∀ (r : Raw) (picks : List Nat) (tmin tmax bufsz : ℚ) (ds : Bool),
      r.cplx = true →
        (saveWithWarn false r picks tmin tmax bufsz ds).2.1 = 1 ∧
        (saveWithWarn false r picks tmin tmax bufsz ds).2.2 = true) ∧
    (∀ (r : Raw) (picks : List Nat) (tmin tmax bufsz : ℚ) (ds : Bool),
      (saveWithWarn true r picks tmin tmax bufsz ds).2.1 = 0 ∧
      (saveWithWarn true r picks tmin tmax bufsz ds).2.2 = true) ∧
    (∀ (w : Bool) (r : Raw) (picks : List Nat) (tmin tmax bufsz : ℚ) (ds : Bool),
      (saveWithWarn w r picks tmin tmax bufsz ds).1
        = r.save picks tmin tmax bufsz ds) ∧
    (∀ (w : Bool) (r : Raw) (picks : List Nat) (tmin tmax bufsz : ℚ)
      (m : PreloadMode) (j : Nat), j < picks.length →
      (loadRaw (saveWithWarn w r picks tmin tmax bufsz false).1 m).getPick j 0
          (r.saveStop tmax - r.saveStart tmin)
        = sliceRow (rowOf r.activeData (picks.getD j 0))
            (r.saveStart tmin) (r.saveStop tmax)) := by
  refine ⟨fun r picks tmin tmax bufsz ds h => ⟨?_, ?_⟩,
    fun r picks tmin tmax bufsz ds => ⟨?_, ?_⟩,
    fun w r picks tmin tmax bufsz ds => rfl,
    fun w r picks tmin tmax bufsz m j hj => ?_⟩
  · simp [saveWithWarn, h]
  · simp [saveWithWarn, h]
  · simp [saveWithWarn]
  · simp [saveWithWarn]
  · exact save_load_row r picks tmin tmax bufsz m j hj

/-- Witness for C4 at a concrete complex-valued container. -/
theorem C4_complex_save_warn_once_witness :
    ((saveWithWarn false { demoRaw with cplx := true } [0] 0 4 1 false).2.1 = 1 ∧
      (saveWithWarn false { demoRaw with cplx := true } [0] 0 4 1 false).2.2 = true) ∧
    ((saveWithWarn true { demoRaw with cplx := true } [0] 0 4 1 false).2.1 = 0 ∧
      (saveWithWarn true { demoRaw with cplx := true } [0] 0 4 1 false).2.2 = true) ∧
    (loadRaw (saveWithWarn false { demoRaw with cplx := true } [0] 0 4 1 false).1
          .memory).getPick 0 0
        ({ demoRaw with cplx := true }.saveStop 4
          - { demoRaw with cplx := true }.saveStart 0)
      = sliceRow (rowOf { demoRaw with cplx := true }.activeData ([0].getD 0 0))
          ({ demoRaw with cplx := true }.saveStart 0)
          ({ demoRaw with cplx := true }.saveStop 4) :=
  ⟨C4_complex_save_warn_once.1 { demoRaw with cplx := true } [0] 0 4 1 false rfl,
   C4_complex_save_warn_once.2.1 { demoRaw with cplx := true } [0] 0 4 1 false,
   C4_complex_save_warn_once.2.2.2 false { demoRaw with cplx := true } [0] 0 4 1
     .memory 0 (by decide)⟩

theorem freqGain_tiling (fl fh f : ℚ) (h0 : 0 < fl) (h1 : fl < fh) :
    freqGain 0 (some fl) f + freqGain fh none f + freqGain fl (some fh) f = 1 := by
  simp only [freqGain]
  have hfl : fl ≠ 0 := ne_of_gt h0
  simp only [if_true]
  rw [if_neg hfl]
  rcases le_or_lt f fl with hA | hA
  · rw [if_pos hA, if_neg (show ¬fh < f by linarith),
      if_neg (show ¬(fl < f ∧ f ≤ fh) by rintro ⟨hc, -⟩; linarith)]
    norm_num
  · rcases le_or_lt f fh with hB | hB
    · rw [if_neg (show ¬f ≤ fl by linarith), if_neg (show ¬fh < f by linarith),
        if_pos ⟨hA, hB⟩]
      norm_num
    · rw [if_neg (show ¬f ≤ fl by linarith), if_pos hB,
        if_neg (show ¬(fl < f ∧ f ≤ fh) by rintro ⟨-, hc⟩; linarith)]
      norm_num

theorem filter_three_sum (fl fh sf : ℚ) (h0 : 0 < fl) (h1 : fl < fh)
    (x : List Cplx) :
    addRow (addRow (filterChannel 0 (some fl) sf x) (filterChannel fh none sf x))
      (filterChannel fl (some fh) sf x) = x := by
  apply List.ext_getElem
  · simp [addRow, filterChannel]
  · intro i h₁ h₂
    simp only [addRow, filterChannel, List.getElem_zipWith, List.getElem_mapIdx]
    rw [← add_smul, ← add_smul,
      freqGain_tiling fl fh (binFreq sf x.length i) h0 h1, one_smul]


/-- Concrete one-channel, four-sample, preloaded container at 4 Hz whose
single channel is constant, exhibiting spectral content inside the
claimed filter bands. -/
def cexRaw2 : Raw :=
  { sfreq := 4
    ch_names := ["MEG 0111"]
    bads := []
    projs := []
    proj_active := false
    first_samp := 0
    mode := .memory
    file := [[(1, 0), (1, 0), (1, 0), (1, 0)]]
    buf := [[(1, 0), (1, 0), (1, 0), (1, 0)]]
    cplx := false }

/-- Counterexample to C2 as stated: on a preloaded container, band edges
`f_low = 1 < f_high = 2`, channel `0` selected, the componentwise sum of
the claimed low-pass `filter(0, f_high)`, high-pass `filter(f_low, None)`
and band-pass `filter(f_low, f_high)` outputs differs from the original
signal: the band between the edges is passed by all three calls, so its
content is counted three times. -/
theorem C2_filter_decomposition_counterexample :
    cexRaw2.isPreloaded = true ∧ (0 : ℚ) < 1 ∧ (1 : ℚ) < 2 ∧ 0 ∈ [0] ∧
    addRow (addRow (rowOf (cexRaw2.filter 0 (some 2) [0]).buf 0)
        (rowOf (cexRaw2.filter 1 none [0]).buf 0))
      (rowOf (cexRaw2.filter 1 (some 2) [0]).buf 0) ≠ rowOf cexRaw2.buf 0 := by
  refine ⟨rfl, by norm_num, by norm_num, by decide, ?_⟩
  norm_num [cexRaw2, Raw.filter, Raw.activeData, Raw.isPreloaded, filterChannel,
    freqGain, binFreq, addRow, rowOf, List.mapIdx_cons, Prod.smul_def,
    Prod.ext_iff]

/-- C2 (amended): with the cutoff assignment the test code uses —
low-pass `filter(0, f_low)`, high-pass `filter(f_high, None)`, band-pass
`filter(f_low, f_high)` — on a preloaded container with band edges
`0 < f_low < f_high`, the componentwise sum of the three outputs on every
channel in `picks` equals the original signal exactly, and every channel
not in `picks` is left bit-identical to its input by each filter call. -/
theorem C2_filter_decomposition (r : Raw) (fl fh : ℚ) (picks : List Nat)
    (c : Nat) (hpre : r.isPreloaded = true) (h0 : 0 < fl) (h1 : fl < fh) :
    (c ∈ picks →
      addRow (addRow (rowOf (r.filter 0 (some fl) picks).buf c)
          (rowOf (r.filter fh none picks).buf c))
        (rowOf (r.filter fl (some fh) picks).buf c) = rowOf r.buf c) ∧
    (c ∉ picks → ∀ (l : ℚ) (h : Option ℚ),
      rowOf (r.filter l h picks).buf c = rowOf r.buf c) := by
  have ha : r.activeData = r.buf := by
    rw [Raw.activeData, hpre]
    rfl
  have hbuf : ∀ (l : ℚ) (h : Option ℚ), (r.filter l h picks).buf
      = r.buf.mapIdx (fun c row =>
          if c ∈ picks then filterChannel l h r.sfreq row else row) := by
    intro l h
    rw [Raw.filter, ha]
  constructor
  · intro hc
    by_cases hlt : c < r.buf.length
    · have key : ∀ (l : ℚ) (h : Option ℚ),
          rowOf (r.filter l h picks).buf c
            = filterChannel l h r.sfreq (rowOf r.buf c) := by
        intro l h
        rw [hbuf, rowOf, List.getD_eq_getElem _ _ (by simpa using hlt),
          List.getElem_mapIdx, if_pos hc, rowOf, List.getD_eq_getElem _ _ hlt]
      rw [key, key, key, filter_three_sum fl fh r.sfreq h0 h1]
    · have hge : r.buf.length ≤ c := Nat.le_of_not_lt hlt
      have key : ∀ (l : ℚ) (h : Option ℚ),
          rowOf (r.filter l h picks).buf c = [] := by
        intro l h
        rw [hbuf, rowOf, List.getD_eq_default _ _ (by simpa using hge)]
      rw [key, key, key, rowOf, List.getD_eq_default _ _ hge]
      rfl
  · intro hc l h
    by_cases hlt : c < r.buf.length
    · rw [hbuf, rowOf, List.getD_eq_getElem _ _ (by simpa using hlt),
        List.getElem_mapIdx, if_neg hc, rowOf, List.getD_eq_getElem _ _ hlt]
    · have hge : r.buf.length ≤ c := Nat.le_of_not_lt hlt
      rw [hbuf, rowOf, List.getD_eq_default _ _ (by simpa using hge), rowOf,
        List.getD_eq_default _ _ hge]

/-- Witness for the amended C2 at a concrete preloaded container. -/
theorem C2_filter_decomposition_witness :
    ((0 : Nat) ∈ [0] →
      addRow (addRow (rowOf (cexRaw2.filter 0 (some 1) [0]).buf 0)
          (rowOf (cexRaw2.filter 2 none [0]).buf 0))
        (rowOf (cexRaw2.filter 1 (some 2) [0]).buf 0) = rowOf cexRaw2.buf 0) ∧
    ((0 : Nat) ∉ [0] → ∀ (l : ℚ) (h : Option ℚ),
      rowOf (cexRaw2.filter l h [0]).buf 0 = rowOf cexRaw2.buf 0) :=
  C2_filter_decomposition cexRaw2 1 2 [0] 0 rfl (by norm_num) (by norm_num)

theorem WF_activeData (r : Raw) (hwf : r.WF) : r.activeData = r.file := by
  rw [Raw.activeData]
  cases hp : r.isPreloaded with
  | false => rfl
  | true => simpa using hwf.1 hp

theorem rowOf_hconcat (a b : List (List Cplx)) (h : a.length = b.length)
    (c : Nat) : rowOf (hconcat a b) c = rowOf a c ++ rowOf b c := by
  by_cases hlt : c < a.length
  · rw [hconcat, rowOf,
      List.getD_eq_getElem _ _ (by rw [List.length_zipWith, ← h, min_self]; exact hlt),
      List.getElem_zipWith, rowOf, List.getD_eq_getElem _ _ hlt, rowOf,
      List.getD_eq_getElem _ _ (h ▸ hlt)]
  · have hge : a.length ≤ c := Nat.le_of_not_lt hlt
    rw [hconcat, rowOf,
      List.getD_eq_default _ _ (by rw [List.length_zipWith, ← h, min_self]; exact hge),
      rowOf, List.getD_eq_default _ _ hge, rowOf,
      List.getD_eq_default _ _ (h ▸ hge)]
    rfl

theorem length_hconcat (a b : List (List Cplx)) (h : a.length = b.length) :
    (hconcat a b).length = a.length := by
  rw [hconcat, List.length_zipWith, ← h, min_self]

theorem concatData_replicate (r : Raw) :
    ∀ N : Nat, 1 ≤ N →
      (concatData (List.replicate N r)).length = r.activeData.length ∧
      ∀ c : Nat, rowOf (concatData (List.replicate N r)) c
        = (List.replicate N (rowOf r.activeData c)).flatten := by
  intro N
  induction N with
  | zero => omega
  | succ M ih =>
    intro _
    rcases Nat.eq_zero_or_pos M with hM | hM
    · subst hM
      refine ⟨rfl, fun c => ?_⟩
      rw [List.replicate_one, List.replicate_one]
      show rowOf r.activeData c = _
      rw [List.flatten_cons, List.flatten_nil, List.append_nil]
    · obtain ⟨hlen, hrow⟩ := ih hM
      have hcons : List.replicate (M + 1) r = r :: List.replicate M r :=
        List.replicate_succ r M
      have hne : List.replicate M r ≠ [] := by
        intro h
        rw [← List.length_eq_zero] at h
        rw [List.length_replicate] at h
        omega
      have hstep : concatData (List.replicate (M + 1) r)
          = hconcat r.activeData (concatData (List.replicate M r)) := by
        rw [hcons]
        rcases hl : List.replicate M r with _ | ⟨s, rest⟩
        · exact absurd hl hne
        · rfl
      constructor
      · rw [hstep, length_hconcat _ _ hlen.symm]
      · intro c
        rw [hstep, rowOf_hconcat _ _ hlen.symm c, hrow c,
          List.replicate_succ, List.flatten_cons]

theorem length_flatten_replicate (l : List Cplx) (N : Nat) :
    (List.replicate N l).flatten.length = N * l.length := by
  rw [List.length_flatten, List.map_replicate, List.sum_replicate, smul_eq_mul]

theorem getD_flatten_replicate (l : List Cplx) (d : Cplx) :
    ∀ (N i : Nat), i < N * l.length →
      (List.replicate N l).flatten.getD i d = l.getD (i % l.length) d := by
  intro N
  induction N with
  | zero => omega
  | succ M ih =>
    intro i hi
    rw [Nat.succ_mul] at hi
    rw [List.replicate_succ, List.flatten_cons]
    by_cases hlt : i < l.length
    · rw [List.getD_eq_getElem _ _
        (by rw [List.length_append, length_flatten_replicate]; omega),
        List.getElem_append_left hlt, ← List.getD_eq_getElem _ d hlt,
        Nat.mod_eq_of_lt hlt]
    · have hge : l.length ≤ i := Nat.le_of_not_lt hlt
      have hi2 : i - l.length < M * l.length := by omega
      rw [List.getD_eq_getElem _ _
        (by rw [List.length_append, length_flatten_replicate]; omega),
        List.getElem_append_right hge]
      have hrec := ih (i - l.length) hi2
      rw [List.getD_eq_getElem _ d
        (by rw [length_flatten_replicate]; exact hi2)] at hrec
      rw [hrec, Nat.mod_eq_sub_mod hge]

theorem sliceRow_singleton (l : List Cplx) (i : Nat) (hi : i < l.length) :
    sliceRow l i (i + 1) = [l.getD i ((0 : ℚ), (0 : ℚ))] := by
  rw [sliceRow, List.drop_eq_getElem_cons hi, Nat.add_sub_cancel_left,
    List.take_succ_cons, List.take_zero, List.getD_eq_getElem _ _ hi]

theorem activeData_mk (r : Raw) (m : PreloadMode) (d : List (List Cplx)) :
    ({ r with mode := m, file := d, buf := if m = .lazy then [] else d } : Raw).activeData
      = d := by
  cases m <;> rfl

theorem sliceRow_nil (start stop : Nat) : sliceRow [] start stop = [] := by
  rw [sliceRow, List.drop_nil, List.take_nil]

/-- C3 (amended): concatenating `N ≥ 1` identical copies of a well-formed
Raw container, in any preload mode, succeeds and produces one container
whose `first_samp` is the first input's, whose sample count is `N` times
the input's, whose `last_samp` is the last input's last sample shifted
into the contiguous concatenated frame (`first_samp + N*n_times - 1`),
and reading any sample index `i` of the concatenation returns exactly the
original's sample at index `i mod n_times`, on every channel. -/
theorem C3_concat_replicate (r : Raw) (N : Nat) (opt : PreloadOpt)
    (hN : 1 ≤ N) (hwf : r.WF) :
    ∃ q : Raw, concatenate_raws (List.replicate N r) opt = .ok q ∧
      q.first_samp = r.first_samp ∧
      q.n_times = N * r.n_times ∧
      q.last_samp = r.first_samp + N * r.n_times - 1 ∧
      ∀ (i c : Nat), i < N * r.n_times →
        q.getPick c i (i + 1) = r.getPick c (i % r.n_times) (i % r.n_times + 1) := by
  obtain ⟨M, rfl⟩ : ∃ M, N = M + 1 := ⟨N - 1, by omega⟩
  have hact : r.activeData = r.file := WF_activeData r hwf
  have hcons : List.replicate (M + 1) r = r :: List.replicate M r :=
    List.replicate_succ r M
  have hall : ((List.replicate M r).all (fun s =>
      decide (r.ch_names = s.ch_names ∧ r.bads = s.bads ∧ r.projs = s.projs)))
        = true := by
    rw [List.all_eq_true]
    intro s hs
    rw [List.eq_of_mem_replicate hs]
    simp
  have hok : concatenate_raws (List.replicate (M + 1) r) opt
      = .ok { r with
          mode := concatMode (r :: List.replicate M r) opt
          file := concatData (r :: List.replicate M r)
          buf := if concatMode (r :: List.replicate M r) opt = .lazy then []
                 else concatData (r :: List.replicate M r) } := by
    rw [hcons, concatenate_raws, if_pos hall]
  obtain ⟨hlen, hrow⟩ := concatData_replicate r (M + 1) (by omega)
  have hrowf : ∀ c : Nat, rowOf (concatData (r :: List.replicate M r)) c
      = (List.replicate (M + 1) (rowOf r.file c)).flatten := by
    intro c
    rw [← hcons, hrow c, hact]
  have hnt : ({ r with
      mode := concatMode (r :: List.replicate M r) opt
      file := concatData (r :: List.replicate M r)
      buf := if concatMode (r :: List.replicate M r) opt = .lazy then []
             else concatData (r :: List.replicate M r) } : Raw).n_times
        = (M + 1) * r.n_times := by
    show (rowOf (concatData (r :: List.replicate M r)) 0).length = _
    rw [hrowf 0, length_flatten_replicate]
    rfl
  refine ⟨_, hok, rfl, hnt, ?_, ?_⟩
  · rw [Raw.last_samp, hnt]
  · intro i c hi
    rw [Raw.getPick, Raw.getPick, activeData_mk, hrowf c, hact]
    by_cases hc : c < r.file.length
    · have hmem : rowOf r.file c ∈ r.file := by
        rw [rowOf, List.getD_eq_getElem _ _ hc]
        exact List.getElem_mem hc
      have hrl : (rowOf r.file c).length = r.n_times := hwf.2.2 _ hmem
      have hnpos : 0 < r.n_times := by
        rcases Nat.eq_zero_or_pos r.n_times with h0 | h0
        · rw [h0, Nat.mul_zero] at hi
          omega
        · exact h0
      have himod : i % r.n_times < r.n_times := Nat.mod_lt _ hnpos
      rw [sliceRow_singleton _ i
          (by rw [length_flatten_replicate, hrl]; exact hi),
        sliceRow_singleton _ (i % r.n_times) (by rw [hrl]; exact himod),
        getD_flatten_replicate _ _ (M + 1) i (by rw [hrl]; exact hi), hrl]
    · have hge : r.file.length ≤ c := Nat.le_of_not_lt hc
      have hnil : rowOf r.file c = [] := List.getD_eq_default _ _ hge
      rw [hnil]
      have hfl : (List.replicate (M + 1) ([] : List Cplx)).flatten = [] := by
        simp
      rw [hfl, sliceRow_nil, sliceRow_nil]

/-- Counterexample to C3 as stated: concatenating two identical copies of
a four-sample container yields `last_samp = 7` (the contiguous layout),
not the last input's `last_samp = 3`: for identical copies the
concatenation's `last_samp` is not the last input's. -/
theorem C3_concat_replicate_counterexample :
    (concatenate_raws (List.replicate 2 cexRaw2) .auto).toOption.map Raw.last_samp
        = some 7 ∧
    cexRaw2.last_samp = 3 := by
  decide

/-- Witness for the amended C3 at two copies of a concrete container. -/
theorem C3_concat_replicate_witness :
    ∃ q : Raw, concatenate_raws (List.replicate 2 cexRaw2) .auto = .ok q ∧
      q.first_samp = cexRaw2.first_samp ∧
      q.n_times = 2 * cexRaw2.n_times ∧
      q.last_samp = cexRaw2.first_samp + 2 * cexRaw2.n_times - 1 ∧
      ∀ (i c : Nat), i < 2 * cexRaw2.n_times →
        q.getPick c i (i + 1)
          = cexRaw2.getPick c (i % cexRaw2.n_times) (i % cexRaw2.n_times + 1) :=
  C3_concat_replicate cexRaw2 2 .auto (by decide) (by decide)

theorem findIdx_beq_getD (l : List Nat) :
    ∀ (j i0 : Nat), l.Nodup → j < l.length →
      List.findIdx? (fun x => x == l.getD j 0) l i0 = some (i0 + j) := by
  induction l with
  | nil =>
    intro j i0 _ hj
    simp at hj
  | cons p ps ih =>
    intro j i0 hnd hj
    obtain ⟨hnotmem, hnd2⟩ := List.nodup_cons.mp hnd
    rcases j with _ | j
    · rw [List.findIdx?_cons, if_pos (by simp), Nat.add_zero]
    · have hj2 : j < ps.length := by simpa using hj
      have hmem : ps.getD j 0 ∈ ps := by
        rw [List.getD_eq_getElem _ _ hj2]
        exact List.getElem_mem hj2
      have hgd : (p :: ps).getD (j + 1) 0 = ps.getD j 0 := rfl
      have hne : (p == (p :: ps).getD (j + 1) 0) = false := by
        rw [hgd]
        simp only [beq_eq_false_iff_ne, ne_eq]
        intro h
        exact hnotmem (h ▸ hmem)
      rw [List.findIdx?_cons, if_neg (by rw [hne]; exact Bool.false_ne_true),
        hgd, ih j (i0 + 1) hnd2 hj2]
      congr 1
      omega

theorem indexOf_getD_of_nodup (l : List Nat) (j : Nat) (hnd : l.Nodup)
    (hj : j < l.length) : List.indexOf? (l.getD j 0) l = some j := by
  rw [List.indexOf?]
  have := findIdx_beq_getD l j 0 hnd hj
  rw [Nat.zero_add] at this
  exact this

theorem rowOf_setData (r : Raw) (picks : List Nat) (start : Nat)
    (a : List (List Cplx)) (j : Nat) (hnd : picks.Nodup)
    (hj : j < picks.length) (hc : picks.getD j 0 < r.buf.length) :
    rowOf (r.setData picks start a).buf (picks.getD j 0)
      = overwriteSeg (rowOf r.buf (picks.getD j 0)) start (a.getD j []) := by
  show rowOf (r.buf.mapIdx _) _ = _
  rw [rowOf, List.getD_eq_getElem _ _ (by simpa using hc), List.getElem_mapIdx,
    indexOf_getD_of_nodup picks j hnd hj, rowOf, List.getD_eq_getElem _ _ hc]

theorem sliceRow_overwrite (old vals : List Cplx) (start stop K : Nat)
    (hv : vals.length = stop - start) (hss : start ≤ stop) (hsK : stop ≤ K)
    (hsl : start ≤ old.length) :
    sliceRow ((overwriteSeg old start vals).take K) start stop = vals := by
  rw [sliceRow, List.drop_take, overwriteSeg, List.append_assoc,
    List.drop_left' (by rw [List.length_take]; omega), List.take_take,
    min_eq_left (by omega), ← hv, List.take_left' rfl]

/-- C5: indexed assignment on a container that is not preloaded fails with
the state error; on a preloaded container (in-memory or memory-mapped) a
well-shaped assignment succeeds, and saving the whole container and
reloading it (in any mode) then returns exactly the assigned values for
the assigned region. -/
theorem C5_setitem_preload :
    (∀ (r : Raw) (picks : List Nat) (start stop : Nat) (a : List (List Cplx)),
      r.isPreloaded = false →
        r.setItem picks start stop a = .error .stateError) ∧
    (∀ (r : Raw) (picks : List Nat) (start stop : Nat) (a : List (List Cplx))
      (tmin tmax bufsz : ℚ) (m : PreloadMode) (j : Nat),
      r.isPreloaded = true →
      picks.Nodup →
      a.length = picks.length →
      (∀ v ∈ a, v.length = stop - start) →
      j < picks.length →
      picks.getD j 0 < r.buf.length →
      start ≤ stop →
      stop ≤ (rowOf r.buf (picks.getD j 0)).length →
      stop ≤ r.n_times →
      r.saveStart tmin = 0 →
      r.saveStop tmax = r.n_times →
      r.setItem picks start stop a = .ok (r.setData picks start a) ∧
      (loadRaw ((r.setData picks start a).save (List.range r.buf.length)
          tmin tmax bufsz false) m).getPick (picks.getD j 0) start stop
        = a.getD j []) := by
  constructor
  · intro r picks start stop a h
    rw [Raw.setItem, if_pos h]
  · intro r picks start stop a tmin tmax bufsz m j hpre hnd hlen hshape hj hc
      hss hstoplen hstopn hs0 hs1
    have hja : j < a.length := by omega
    have hmemv : a.getD j [] ∈ a := by
      rw [List.getD_eq_getElem _ _ hja]
      exact List.getElem_mem hja
    have hv : (a.getD j []).length = stop - start := hshape _ hmemv
    constructor
    · rw [Raw.setItem, if_neg (by rw [hpre]; exact fun h => nomatch h),
        if_pos ⟨hlen, hshape⟩]
    · have hact2 : (r.setData picks start a).activeData
          = (r.setData picks start a).buf := by
        rw [Raw.activeData]
        have : (r.setData picks start a).isPreloaded = true := hpre
        rw [this]
        rfl
      have hs0' : (r.setData picks start a).saveStart tmin = 0 := hs0
      have hs1' : (r.setData picks start a).saveStop tmax = r.n_times := hs1
      have hdata : ((r.setData picks start a).save (List.range r.buf.length)
          tmin tmax bufsz false).data
          = (List.range r.buf.length).map (fun c =>
              ((rowOf (r.setData picks start a).activeData c).drop
                ((r.setData picks start a).saveStart tmin)).take
                ((r.setData picks start a).saveStop tmax
                  - (r.setData picks start a).saveStart tmin)) := rfl
      rw [Raw.getPick, loadRaw_activeData, hdata, rowOf,
        getD_map_of_lt _ _ _ (by simpa using hc) _ 0,
        List.getD_eq_getElem _ _ (by simpa using hc), List.getElem_range,
        hs0', hs1', hact2, Nat.sub_zero, List.drop_zero,
        rowOf_setData r picks start a j hnd hj hc,
        sliceRow_overwrite _ _ start stop r.n_times hv hss hstopn (by omega)]

/-- Witness for C5 at a concrete container and assignment. -/
theorem C5_setitem_preload_witness :
    ({ demoRaw with mode := .lazy } : Raw).setItem [1] 1 3 [[(9, 0), (8, 0)]]
        = .error .stateError ∧
    (demoRaw.setItem [1] 1 3 [[(9, 0), (8, 0)]]
        = .ok (demoRaw.setData [1] 1 [[(9, 0), (8, 0)]]) ∧
      (loadRaw ((demoRaw.setData [1] 1 [[(9, 0), (8, 0)]]).save
          (List.range demoRaw.buf.length) 0 4 1 false) .memory).getPick
          ([1].getD 0 0) 1 3
        = [[(9, 0), (8, 0)]].getD 0 []) :=
  ⟨C5_setitem_preload.1 { demoRaw with mode := .lazy } [1] 1 3
      [[(9, 0), (8, 0)]] rfl,
   C5_setitem_preload.2 demoRaw [1] 1 3 [[(9, 0), (8, 0)]] 0 4 1 .memory 0
     rfl (by decide) rfl
     (by
       intro v hv
       rw [List.mem_singleton.mp hv]
       rfl)
     (by decide) (by decide) (by decide) (by decide) (by decide)
     (by
       show floorSamp 0 demoRaw.sfreq = 0
       rw [floorSamp]
       norm_num)
     (by
       show min demoRaw.n_times (floorSamp 4 demoRaw.sfreq + 1) = demoRaw.n_times
       rw [floorSamp]
       norm_num [demoRaw, Raw.n_times, rowOf]
       decide)⟩

theorem indexOf_isSome_of_mem (l : List Nat) (c : Nat) (h : c ∈ l) :
    ∃ j, List.indexOf? c l = some j := by
  rw [List.indexOf?]
  have hs : (List.findIdx? (fun x => x == c) l).isSome := by
    rw [List.findIdx?_isSome, List.any_eq_true]
    exact ⟨c, h, by simp⟩
  exact Option.isSome_iff_exists.mp hs

/-- C10: for every buffer and channel selection, the channel data stored
by `apply_hilbert(picks, envelope=True)` on a selected channel is exactly
the complex magnitude, sample by sample, of the analytic signal stored by
`apply_hilbert(picks)` on the same input data, independently of the job
counts used by either call. -/
theorem C10_hilbert_envelope (d : List (List ℚ)) (picks : List Nat)
    (j₁ j₂ : Nat) (c : Nat) (hc : c < d.length) (hmem : c ∈ picks) :
    (apply_hilbert_env d picks j₁).getD c []
      = ((apply_hilbert d picks j₂).getD c []).map complexAbs := by
  obtain ⟨j, hj⟩ := indexOf_isSome_of_mem picks c hmem
  have henv : (apply_hilbert_env d picks j₁).getD c []
      = (picks.map (fun c => (analyticSignal (d.getD c [])).map complexAbs)).getD
          j [] := by
    rw [apply_hilbert_env, splitJobs_map_flatten,
      List.getD_eq_getElem _ _ (by simpa using hc), List.getElem_mapIdx, hj]
  have hana : (apply_hilbert d picks j₂).getD c []
      = (picks.map (fun c => analyticSignal (d.getD c []))).getD j [] := by
    rw [apply_hilbert, splitJobs_map_flatten,
      List.getD_eq_getElem _ _ (by simpa using hc), List.getElem_mapIdx, hj]
  rw [henv, hana]
  by_cases hjl : j < picks.length
  · rw [getD_map_of_lt _ _ _ hjl _ 0, getD_map_of_lt _ _ _ hjl _ 0]
  · have hge : picks.length ≤ j := Nat.le_of_not_lt hjl
    rw [List.getD_eq_default _ _ (by simpa using hge),
      List.getD_eq_default _ _ (by simpa using hge)]
    rfl

/-- Witness for C10 at a concrete two-channel buffer. -/
theorem C10_hilbert_envelope_witness :
    (apply_hilbert_env [[1, 2, 3], [4, 5, 6]] [0] 2).getD 0 []
      = ((apply_hilbert [[1, 2, 3], [4, 5, 6]] [0] 1).getD 0 []).map complexAbs :=
  C10_hilbert_envelope [[1, 2, 3], [4, 5, 6]] [0] 2 1 0 (by decide) (by decide)
